import Mathlib

/-!
# Verification of `UdonArrayUtilsLibrary`

Shallow embedding of the generic array algorithms of
`Source/UdonArrayUtils/Private/UdonArrayUtilsLibrary.cpp` (and the Blueprint
thunks of `Source/UdonArrayUtils/Public/UdonArrayUtilsLibrary.h`).

Modelling conventions:
* A runtime-typed Unreal array (`FScriptArrayHelper` over an `FArrayProperty`)
  is modelled as a `List α`: the algorithms only read and permute whole
  elements through the element property, so the byte-level representation is
  irrelevant to them and `α` stands for one element's bytes.
* A `UFunction` predicate or comparator invoked through
  `CreateLambdaToCallUFunction` is modelled as a Lean function `α → Bool`
  (resp. `α → α → Bool`): the marshaller packs the element bytes, calls the
  function and reads back one `bool`.
* Unreal's `INDEX_NONE` is `-1`, so the index-returning searches are modelled
  as returning `Int`.
* The C++ `std::` range algorithms (`adjacent_find`, `all_of`, `any_of`,
  `find_if`, `max_element`, `min_element`, `fill`) iterate the array from the
  begin iterator to the end iterator; each is embedded as the corresponding
  structural recursion on the list.
-/

namespace UdonArrayUtils

/-- Unreal Engine's `INDEX_NONE` sentinel (`-1`), returned by the search
functions of `UdonArrayUtilsLibrary.cpp` when nothing is found. -/
def INDEX_NONE : Int := -1

/-! ## Opaque element references (`UdonArrayUtilsLibrary.cpp` lines 13-186) -/

/-- Model of the parts of Unreal's `FProperty` that
`UdonArrayUtilsLibrary.cpp` consumes: `GetSize` is `size`, `SameType` is
modelled as equality of an opaque `typeId`, and `Identical` (semantic equality
of two element buffers) is an arbitrary boolean function supplied by the
descriptor.  An element buffer is a list of bytes (`List Nat`). -/
structure FProperty where
  typeId : Nat
  size : Nat
  identical : List Nat → List Nat → Bool

/-- `FProperty::SameType`, modelled as identity of the type descriptor. -/
def FProperty.SameType (a b : FProperty) : Bool :=
  a.typeId == b.typeId

/-- Model of `udon::memory_transparent_reference` (and its `const` base): a
reference binding a byte buffer (`bytes`, the memory `target_ptr` points at)
to the element's `FProperty`. -/
structure memory_transparent_reference where
  property : FProperty
  bytes : List Nat

namespace memory_transparent_reference

/-- `const_memory_transparent_reference::operator==` (lines 32-43): if the
properties are not the same type, return `false`; otherwise compare the
elements with `FProperty::Identical`. -/
def equal (a b : memory_transparent_reference) : Bool :=
  if !(a.property.SameType b.property) then
    false
  else
    a.property.identical a.bytes b.bytes

/-- Copy assignment from a `const_memory_transparent_reference`
(lines 116-136): if the properties are not the same type, throw
`std::invalid_argument` (modelled as the returned `Option String` message,
with the target memory returned unchanged); otherwise `memcpy` `mem_size`
bytes of the source into the target. -/
def assign (a b : memory_transparent_reference) :
    memory_transparent_reference × Option String :=
  if !(a.property.SameType b.property) then
    (a, some "property of this and other is different")
  else
    ({ a with
        bytes := b.bytes.take a.property.size ++ a.bytes.drop a.property.size },
      none)

/-- `swap(memory_transparent_reference&, memory_transparent_reference&)`
(lines 155-172): if the properties are not the same type, throw
`std::invalid_argument` (modelled as the returned `Option String` message,
with both memories returned unchanged); otherwise `FMemory::Memswap` the two
byte ranges of `mem_size` bytes. -/
def swap (a b : memory_transparent_reference) :
    (memory_transparent_reference × memory_transparent_reference) ×
      Option String :=
  if !(a.property.SameType b.property) then
    ((a, b), some "properties are different from each other")
  else
    (({ a with
          bytes := b.bytes.take a.property.size ++ a.bytes.drop a.property.size },
       { b with
          bytes := a.bytes.take a.property.size ++ b.bytes.drop a.property.size }),
      none)

end memory_transparent_reference

/-! ## Search algorithms -/

/-- Index of the first position whose pair of adjacent elements satisfies the
binary predicate: the behaviour of `std::adjacent_find` over the array's
const iterators (`none` models the end iterator being returned). -/
def adjacentFindIdx (p : α → α → Bool) : List α → Option Nat
  | a :: b :: rest =>
    if p a b then some 0 else (adjacentFindIdx p (b :: rest)).map (· + 1)
  | _ => none

/-- `UUdonArrayUtilsLibrary::GenericAdjacentFind` (lines 654-668): runs
`std::adjacent_find` and returns `std::distance(cbegin_it, found_it)` when a
pair was found (`found_it < cend_it`), and `INDEX_NONE` otherwise. -/
def GenericAdjacentFind (p : α → α → Bool) (l : List α) : Int :=
  match adjacentFindIdx p l with
  | some i => (i : Int)
  | none => INDEX_NONE

/-- Index of the first element satisfying the predicate: the behaviour of
`std::find_if` over the array's const iterators. -/
def findIfIdx (p : α → Bool) : List α → Option Nat
  | [] => none
  | a :: rest =>
    if p a then some 0 else (findIfIdx p rest).map (· + 1)

/-- `UUdonArrayUtilsLibrary::GenericFindIf` (lines 744-758): runs
`std::find_if` and returns the distance from the begin iterator when an
element was found, and `INDEX_NONE` otherwise. -/
def GenericFindIf (p : α → Bool) (l : List α) : Int :=
  match findIfIdx p l with
  | some i => (i : Int)
  | none => INDEX_NONE

/-! ## Predicate tests -/

/-- `UUdonArrayUtilsLibrary::GenericAllSatisfy` (lines 670-683):
`std::all_of` over the array, short-circuiting on the first failure. -/
def GenericAllSatisfy (p : α → Bool) : List α → Bool
  | [] => true
  | a :: rest => p a && GenericAllSatisfy p rest

/-- `UUdonArrayUtilsLibrary::GenericAnySatisfy` (lines 685-698):
`std::any_of` over the array, short-circuiting on the first success. -/
def GenericAnySatisfy (p : α → Bool) : List α → Bool
  | [] => false
  | a :: rest => p a || GenericAnySatisfy p rest

/-- `UUdonArrayUtilsLibrary::GenericNoneSatisfy` (lines 818-822): literally
`!GenericAnySatisfy(...)`. -/
def GenericNoneSatisfy (p : α → Bool) (l : List α) : Bool :=
  !GenericAnySatisfy p l

/-! ## Fill -/

/-- `UUdonArrayUtilsLibrary::GenericFill` (lines 724-731): `std::fill` over
the whole array, overwriting every element with a copy of `v`. -/
def GenericFill (v : α) (l : List α) : List α :=
  l.map fun _ => v

/-- Helper for `GenericFillRange`: walk the array keeping the running index
`i`, overwriting exactly the elements whose index lies in `[s, e)`. -/
def fillRangeAux (v : α) (s e : Nat) : Nat → List α → List α
  | _, [] => []
  | i, a :: rest =>
    (if s ≤ i ∧ i < e then v else a) :: fillRangeAux v s e (i + 1) rest

/-- `UUdonArrayUtilsLibrary::GenericFill` with a range (lines 733-742):
`std::fill(begin_it + StartIndex, begin_it + EndIndex, Value)`.  Modelled for
the valid index ranges `0 ≤ StartIndex ≤ EndIndex ≤ length` (anything else
dereferences out-of-range iterators, which is undefined in the source). -/
def GenericFillRange (v : α) (s e : Nat) (l : List α) : List α :=
  fillRangeAux v s e 0 l

/-! ## Extremum search -/

/-- Pair each element with its array index, starting at `i`.  This mirrors the
iterator positions of a scan that starts at index `i`. -/
def enumFromN (i : Nat) : List α → List (Nat × α)
  | [] => []
  | a :: rest => (i, a) :: enumFromN (i + 1) rest

/-- The scan loop of `std::max_element`: `b` is the current best
(index, value); a later element `x` replaces it exactly when
`cmp(*largest, *i)` holds, i.e. when `cmp b.2 x.2`.  Returns the index of the
final best element. -/
def maxScanP (cmp : α → α → Bool) : Nat × α → List (Nat × α) → Nat
  | b, [] => b.1
  | b, x :: rest =>
    if cmp b.2 x.2 then maxScanP cmp x rest else maxScanP cmp b rest

/-- The scan loop of `std::min_element`: a later element `x` replaces the
current best `b` exactly when `cmp(*i, *smallest)` holds, i.e. when
`cmp x.2 b.2`. -/
def minScanP (cmp : α → α → Bool) : Nat × α → List (Nat × α) → Nat
  | b, [] => b.1
  | b, x :: rest =>
    if cmp x.2 b.2 then minScanP cmp x rest else minScanP cmp b rest

/-- `UUdonArrayUtilsLibrary::GenericMaxElementIndex` (lines 773-787): run
`std::max_element` with the comparison callback; if it returned the end
iterator (empty array) the result is `INDEX_NONE`, otherwise the distance
from the begin iterator. -/
def GenericMaxElementIndex (cmp : α → α → Bool) (l : List α) : Int :=
  match enumFromN 0 l with
  | [] => INDEX_NONE
  | b :: rest => ((maxScanP cmp b rest : Nat) : Int)

/-- `UUdonArrayUtilsLibrary::GenericMinElementIndex` (lines 802-816): as
`GenericMaxElementIndex` but with `std::min_element`. -/
def GenericMinElementIndex (cmp : α → α → Bool) (l : List α) : Int :=
  match enumFromN 0 l with
  | [] => INDEX_NONE
  | b :: rest => ((minScanP cmp b rest : Nat) : Int)

/-- `UUdonArrayUtilsLibrary::GenericMax` (lines 760-771): delegate to
`GenericMaxElementIndex`; on `INDEX_NONE` return `nullptr` (modelled `none`),
otherwise a pointer to the element at that index
(`ArrayHelper.GetRawPtr(max_elem_index)`). -/
def GenericMax (cmp : α → α → Bool) (l : List α) : Option α :=
  let i := GenericMaxElementIndex cmp l
  if i = INDEX_NONE then none else l.get? i.toNat

/-- `UUdonArrayUtilsLibrary::GenericMin` (lines 789-800): as `GenericMax`
with `GenericMinElementIndex`. -/
def GenericMin (cmp : α → α → Bool) (l : List α) : Option α :=
  let i := GenericMinElementIndex cmp l
  if i = INDEX_NONE then none else l.get? i.toNat

/-- The `MaxValue` output-pin handling of `execMax`
(`UdonArrayUtilsLibrary.h` lines 1173-1260): the result of `GenericMax` is
copied onto the caller-supplied output value only when the returned pointer
is non-null; for an empty array the output keeps its previous value. -/
def execMax (cmp : α → α → Bool) (l : List α) (OutMaxValue : α) : α :=
  match GenericMax cmp l with
  | none => OutMaxValue
  | some v => v

/-- The `MinValue` output-pin handling of `execMin`
(`UdonArrayUtilsLibrary.h` lines 1328-1415), analogous to `execMax`. -/
def execMin (cmp : α → α → Bool) (l : List α) (OutMinValue : α) : α :=
  match GenericMin cmp l with
  | none => OutMinValue
  | some v => v

/-! ## RemoveIf -/

/-- The loop of `UUdonArrayUtilsLibrary::GenericRemoveIf` (lines 842-866):
starting at index `i`, while `i < ArrayHelper.Num()`, test the element at
`i`; if it satisfies the predicate, `RemoveValues(i, 1)` (erase in place) and
re-examine the same index (`--i` followed by the loop's `++i`), otherwise
advance to `i + 1`. -/
def removeIfAux (p : α → Bool) (l : List α) (i : Nat) : List α :=
  if h : i < l.length then
    if p (l.get ⟨i, h⟩) then
      removeIfAux p (l.eraseIdx i) i
    else
      removeIfAux p l (i + 1)
  else
    l
termination_by l.length - i
decreasing_by
  · have : (l.eraseIdx i).length = l.length - 1 := by
      rw [List.length_eraseIdx]
      simp [h]
    omega
  · omega

/-- `UUdonArrayUtilsLibrary::GenericRemoveIf` (lines 842-866): the removal
loop started at index `0`. -/
def GenericRemoveIf (p : α → Bool) (l : List α) : List α :=
  removeIfAux p l 0

/-! ## RandomSample -/

/-- The C++ conversion from the signed `int32 NumOfSamples` to
`unsigned_num_t` (`uint32`), used to initialise `rest_samples`
(line 898): reduction modulo `2 ^ 32`. -/
def toUInt32Nat (k : Int) : Nat :=
  (k % (2 : Int) ^ 32).toNat

/-- The sampling loop of `GenericRandomSample` (lines 899-925).  The list
pairs each array element with the value `dist(mersenne_twister)` drawn for it
(a uniform draw from `[0, rest_length - 1]`): if the draw is below
`rest_samples` the element is appended to `Samples` and `rest_samples` is
decremented, otherwise it is appended to `Others`. -/
def randomSampleAux (restSamples : Nat) :
    List (α × Nat) → List α × List α
  | [] => ([], [])
  | (a, d) :: rest =>
    if d < restSamples then
      let p := randomSampleAux (restSamples - 1) rest
      (a :: p.1, p.2)
    else
      let p := randomSampleAux restSamples rest
      (p.1, a :: p.2)

/-- The guarantee `std::uniform_int_distribution` gives for the draws fed to
`randomSampleAux`: each drawn value lies in `[0, rest_length - 1]` where
`rest_length` is the number of elements from the current one to the end. -/
def ValidDraws : List (α × Nat) → Bool
  | [] => true
  | (_, d) :: rest => decide (d < rest.length + 1) && ValidDraws rest

/-- `UUdonArrayUtilsLibrary::GenericRandomSample` (lines 868-929): for an
empty array return the pair of empty arrays; otherwise run the sampling loop
with `rest_samples` initialised from `NumOfSamples` by unsigned conversion.
The first component models the `Samples` output array, the second the
`Others` output array. -/
def GenericRandomSample (k : Int) (ld : List (α × Nat)) :
    List α × List α :=
  if ld.length = 0 then ([], [])
  else randomSampleAux (toUInt32Nat k) ld

/-! ## Sort -/

/-- Modelled from the spec: `GenericSortAnyArray` (lines 931-943) delegates
the permutation to `std::sort`, the platform standard library's
introsort/quicksort-family algorithm, whose code is not part of this
repository.  It is modelled here as `List.insertionSort`, a deterministic
comparison sort meeting the `std::sort` contract: it reorders the elements
into a sequence sorted by the strict-weak-order comparator `cmp` (`cmp a b`
true meaning `a` must precede `b`). -/
def GenericSortAnyArray (cmp : α → α → Bool) (l : List α) : List α :=
  l.insertionSort fun a b => cmp b a = false

/-! ## Sample data used by witnesses -/

/-- A sample opaque element reference: type descriptor `0`, one byte. -/
def sampleRefA : memory_transparent_reference :=
  ⟨⟨0, 1, fun x y => x == y⟩, [1]⟩

/-- A sample opaque element reference of a different type: type descriptor
`1`, one byte. -/
def sampleRefB : memory_transparent_reference :=
  ⟨⟨1, 1, fun x y => x == y⟩, [2]⟩

/-! ## Helper lemmas -/

theorem take_eraseIdx_self : ∀ (l : List α) (i : Nat),
    (l.eraseIdx i).take i = l.take i
  | [], _ => by simp
  | _ :: _, 0 => by simp
  | a :: l, i + 1 => by
    simp [List.eraseIdx, take_eraseIdx_self l i]

theorem drop_eraseIdx_self : ∀ (l : List α) (i : Nat),
    (l.eraseIdx i).drop i = l.drop (i + 1)
  | [], _ => by simp
  | _ :: _, 0 => by simp [List.eraseIdx]
  | a :: l, i + 1 => by
    simp only [List.eraseIdx, List.drop_succ_cons]
    exact drop_eraseIdx_self l i

/-- The removal loop keeps the first `i` elements and filters the rest: each
erase re-examines the same index, each non-match advances by one. -/
theorem removeIfAux_eq_filter (p : α → Bool) (l : List α) (i : Nat) :
    removeIfAux p l i = l.take i ++ (l.drop i).filter fun a => !p a := by
  rw [removeIfAux]
  split
  · next h =>
    have hdrop : l.drop i = l.get ⟨i, h⟩ :: l.drop (i + 1) := by
      rw [List.drop_eq_getElem_cons h]
      simp
    split
    · next hp =>
      rw [removeIfAux_eq_filter p (l.eraseIdx i) i, take_eraseIdx_self,
        drop_eraseIdx_self, hdrop, List.filter_cons]
      simp [show p l[i] = true from hp]
    · next hp =>
      rw [removeIfAux_eq_filter p l (i + 1), hdrop, List.filter_cons]
      have hp' : p (l.get ⟨i, h⟩) = false := by
        simpa using hp
      have htake : l.take (i + 1) = l.take i ++ [l.get ⟨i, h⟩] := by
        rw [List.take_succ]
        simp [List.getElem?_eq_getElem h]
      rw [htake, List.append_assoc]
      simp [show p l[i] = false from hp', List.get_eq_getElem]
  · next h =>
    have h1 : l.length ≤ i := Nat.le_of_not_lt h
    rw [List.take_of_length_le h1, List.drop_eq_nil_of_le h1]
    simp
termination_by l.length - i
decreasing_by
  all_goals
    first
    | omega
    | (have hlt : i < l.length := by assumption
       have hlen : (l.eraseIdx i).length = l.length - 1 := by
         rw [List.length_eraseIdx]
         simp [hlt]
       omega)

theorem adjacentFindIdx_eq_none (p : α → α → Bool) :
    ∀ l : List α,
      (∀ i, (h : i + 1 < l.length) →
        p (l.get ⟨i, Nat.lt_of_succ_lt h⟩) (l.get ⟨i + 1, h⟩) = false) →
      adjacentFindIdx p l = none
  | [], _ => rfl
  | [_], _ => rfl
  | a :: b :: rest, hadj => by
    have h0 : p a b = false := hadj 0 (by simp)
    rw [adjacentFindIdx, if_neg (by simp [h0])]
    rw [adjacentFindIdx_eq_none p (b :: rest) ?_]
    · rfl
    · intro i h
      exact hadj (i + 1) (by simpa using Nat.succ_lt_succ h)

theorem findIfIdx_eq_none (p : α → Bool) :
    ∀ l : List α, (∀ a ∈ l, p a = false) → findIfIdx p l = none
  | [], _ => rfl
  | a :: rest, hall => by
    rw [findIfIdx, if_neg (by simp [hall a (by simp)])]
    rw [findIfIdx_eq_none p rest fun x hx => hall x (by simp [hx])]
    rfl

theorem randomSampleAux_length_sum (ld : List (α × Nat)) :
    ∀ s : Nat,
      (randomSampleAux s ld).1.length + (randomSampleAux s ld).2.length =
        ld.length := by
  induction ld with
  | nil => intro s; rfl
  | cons hd rest ih =>
    intro s
    obtain ⟨a, d⟩ := hd
    have h1 := ih (s - 1)
    have h2 := ih s
    by_cases hds : d < s <;> simp [randomSampleAux, hds] <;> omega

theorem randomSampleAux_length_samples (ld : List (α × Nat)) :
    ∀ s : Nat, ValidDraws ld = true →
      (randomSampleAux s ld).1.length = min s ld.length := by
  induction ld with
  | nil => intro s _; simp [randomSampleAux]
  | cons hd rest ih =>
    intro s hv
    obtain ⟨a, d⟩ := hd
    simp only [ValidDraws, Bool.and_eq_true, decide_eq_true_eq] at hv
    obtain ⟨hd1, hv'⟩ := hv
    by_cases hds : d < s
    · have hs1 : 1 ≤ s := by omega
      simp [randomSampleAux, hds, ih (s - 1) hv']
      omega
    · have hsle : s ≤ rest.length := by omega
      simp [randomSampleAux, hds, ih s hv']
      omega

theorem randomSampleAux_all_samples (ld : List (α × Nat)) :
    ∀ s : Nat, ValidDraws ld = true → ld.length ≤ s →
      randomSampleAux s ld = (ld.map Prod.fst, []) := by
  induction ld with
  | nil => intro s _ _; rfl
  | cons hd rest ih =>
    intro s hv hlen
    obtain ⟨a, d⟩ := hd
    simp only [ValidDraws, Bool.and_eq_true, decide_eq_true_eq] at hv
    obtain ⟨hd1, hv'⟩ := hv
    simp only [List.length_cons] at hlen
    have hds : d < s := by omega
    simp [randomSampleAux, hds, ih (s - 1) hv' (by omega)]

theorem GenericRandomSample_eq_aux (k : Int) (ld : List (α × Nat)) :
    GenericRandomSample k ld = randomSampleAux (toUInt32Nat k) ld := by
  rw [GenericRandomSample]
  split
  · next hlen =>
    rw [List.length_eq_zero.mp hlen]
    rfl
  · rfl

theorem toUInt32Nat_of_nonneg (k : Int) (h0 : 0 ≤ k) (h1 : k < 2 ^ 31) :
    toUInt32Nat k = k.toNat := by
  rw [toUInt32Nat, Int.emod_eq_of_lt h0 (by omega)]

theorem toUInt32Nat_of_neg (k : Int) (hneg : k < 0) (hlow : -2 ^ 31 ≤ k) :
    2 ^ 31 ≤ toUInt32Nat k := by
  rw [toUInt32Nat]
  have h32 : (2 : Int) ^ 32 = 4294967296 := by norm_num
  have h31 : (2 : Int) ^ 31 = 2147483648 := by norm_num
  rw [h32]
  omega

/-! ## Claim theorems -/

/-- C1 (amended): when no adjacent pair satisfies the binary predicate,
`GenericAdjacentFind` returns the sentinel `INDEX_NONE` (`-1`) — not a value
equal to the array's length — and likewise `GenericFindIf` returns
`INDEX_NONE` when no element satisfies its unary predicate. -/
theorem notFound_returns_INDEX_NONE (p : α → α → Bool) (q : α → Bool)
    (l : List α)
    (hadj : ∀ i, (h : i + 1 < l.length) →
      p (l.get ⟨i, Nat.lt_of_succ_lt h⟩) (l.get ⟨i + 1, h⟩) = false)
    (hfind : ∀ a ∈ l, q a = false) :
    GenericAdjacentFind p l = INDEX_NONE ∧ GenericFindIf q l = INDEX_NONE := by
  constructor
  · rw [GenericAdjacentFind, adjacentFindIdx_eq_none p l hadj]
  · rw [GenericFindIf, findIfIdx_eq_none q l hfind]

/-- Witness for C1's amended theorem at a concrete input. -/
theorem notFound_returns_INDEX_NONE_witness :
    GenericAdjacentFind (fun a b : Nat => a == b) [1, 2] = INDEX_NONE ∧
    GenericFindIf (fun a : Nat => a == 5) [1, 2] = INDEX_NONE :=
  notFound_returns_INDEX_NONE (fun a b : Nat => a == b) (fun a : Nat => a == 5)
    [1, 2]
    (by
      intro i h
      match i, h with
      | 0, _ => rfl)
    (by decide)

/-- C1 counterexample: on `[1, 2]` with the equality predicate no adjacent
pair matches and no element equals `5`, yet neither search returns the
array's length `2` — both return `-1`. -/
theorem notFound_sentinel_cex :
    (fun a b : Nat => a == b) 1 2 = false ∧
    ((fun a : Nat => a == 5) 1 = false ∧ (fun a : Nat => a == 5) 2 = false) ∧
    GenericAdjacentFind (fun a b : Nat => a == b) [1, 2] = -1 ∧
    GenericFindIf (fun a : Nat => a == 5) [1, 2] = -1 ∧
    GenericAdjacentFind (fun a b : Nat => a == b) [1, 2] ≠
      (([1, 2] : List Nat).length : Int) ∧
    GenericFindIf (fun a : Nat => a == 5) [1, 2] ≠
      (([1, 2] : List Nat).length : Int) := by
  decide

/-- C2 (amended): for every array, every `NumOfSamples` `k` with
`0 ≤ k < 2 ^ 31`, and every sequence of in-range random draws, the lengths of
the two output arrays of `GenericRandomSample` sum to the input length, the
`Samples` output has length exactly `min k (len A)`, and when `k ≥ len A`
every element is placed in `Samples` and `Others` is empty.  (For negative
`k` the `min` equation fails: see the counterexample.) -/
theorem randomSample_lengths (k : Int) (ld : List (α × Nat))
    (h0 : 0 ≤ k) (h1 : k < 2 ^ 31) (hv : ValidDraws ld = true) :
    ((GenericRandomSample k ld).1.length +
        (GenericRandomSample k ld).2.length = ld.length) ∧
    (((GenericRandomSample k ld).1.length : Int) =
        min k (ld.length : Int)) ∧
    ((ld.length : Int) ≤ k →
        GenericRandomSample k ld = (ld.map Prod.fst, [])) := by
  rw [GenericRandomSample_eq_aux, toUInt32Nat_of_nonneg k h0 h1]
  refine ⟨randomSampleAux_length_sum ld k.toNat, ?_, ?_⟩
  · rw [randomSampleAux_length_samples ld k.toNat hv]
    omega
  · intro hle
    exact randomSampleAux_all_samples ld k.toNat hv (by omega)

/-- Witness for C2's amended theorem at a concrete input. -/
theorem randomSample_lengths_witness :
    ((GenericRandomSample 1 [((5 : Nat), 1), ((7 : Nat), 0)]).1.length +
        (GenericRandomSample 1 [((5 : Nat), 1), ((7 : Nat), 0)]).2.length =
      ([((5 : Nat), 1), ((7 : Nat), 0)] : List (Nat × Nat)).length) ∧
    (((GenericRandomSample 1 [((5 : Nat), 1), ((7 : Nat), 0)]).1.length : Int) =
      min (1 : Int)
        ((([((5 : Nat), 1), ((7 : Nat), 0)] : List (Nat × Nat)).length : Int))) ∧
    ((([((5 : Nat), 1), ((7 : Nat), 0)] : List (Nat × Nat)).length : Int) ≤ 1 →
        GenericRandomSample 1 [((5 : Nat), 1), ((7 : Nat), 0)] =
          (([((5 : Nat), 1), ((7 : Nat), 0)] : List (Nat × Nat)).map Prod.fst,
            [])) :=
  randomSample_lengths 1 [((5 : Nat), 1), ((7 : Nat), 0)] (by decide)
    (by decide) (by decide)

/-- C2 counterexample: with the one-element array `[0]`, the in-range draw
`0`, and the negative sample count `-1`, the `Samples` output has length `1`,
which is not `min (-1) 1 = -1`: the claim's `len(Samples) == min(k, len(A))`
fails for a negative sample count. -/
theorem randomSample_min_cex :
    ValidDraws [((0 : Nat), 0)] = true ∧
    ((GenericRandomSample (-1) [((0 : Nat), 0)]).1.length : Int) ≠
      min (-1 : Int) (([((0 : Nat), 0)] : List (Nat × Nat)).length : Int) := by
  decide

/-- C4: when the two operands' type descriptors are not the same type,
`operator==` on opaque element references returns `false` (and, being a total
function into `Bool`, does not throw), while copy assignment and `swap`
raise the recoverable `std::invalid_argument` error and leave both operands'
memory unchanged. -/
theorem typeMismatch_behaviour (a b : memory_transparent_reference)
    (h : a.property.SameType b.property = false) :
    memory_transparent_reference.equal a b = false ∧
    (memory_transparent_reference.assign a b).1 = a ∧
    (memory_transparent_reference.assign a b).2 =
      some "property of this and other is different" ∧
    (memory_transparent_reference.swap a b).1.1 = a ∧
    (memory_transparent_reference.swap a b).1.2 = b ∧
    (memory_transparent_reference.swap a b).2 =
      some "properties are different from each other" := by
  simp [memory_transparent_reference.equal, memory_transparent_reference.assign,
    memory_transparent_reference.swap, h]

/-- Witness for C4 on two concrete references of different types. -/
theorem typeMismatch_behaviour_witness :
    sampleRefA.property.SameType sampleRefB.property = false ∧
    memory_transparent_reference.equal sampleRefA sampleRefB = false ∧
    (memory_transparent_reference.assign sampleRefA sampleRefB).1 =
      sampleRefA ∧
    (memory_transparent_reference.swap sampleRefA sampleRefB).2 =
      some "properties are different from each other" :=
  ⟨rfl, (typeMismatch_behaviour sampleRefA sampleRefB rfl).1,
    (typeMismatch_behaviour sampleRefA sampleRefB rfl).2.1,
    (typeMismatch_behaviour sampleRefA sampleRefB rfl).2.2.2.2.2⟩

/-- C5: the predicate-test duality — `GenericAllSatisfy` equals the negation
of `GenericAnySatisfy` of the negated predicate, and `GenericNoneSatisfy`
equals the negation of `GenericAnySatisfy`. -/
theorem predicate_duality (p : α → Bool) (l : List α) :
    GenericAllSatisfy p l = !GenericAnySatisfy (fun a => !p a) l ∧
    GenericNoneSatisfy p l = !GenericAnySatisfy p l := by
  refine ⟨?_, rfl⟩
  induction l with
  | nil => rfl
  | cons a rest ih =>
    simp [GenericAllSatisfy, GenericAnySatisfy, ih]

/-- C6: `GenericRemoveIf` (the single forward pass that, after each in-place
erase, re-examines the same index) leaves the array unchanged under the
constantly-false predicate, and empties it under the constantly-true
predicate. -/
theorem removeIf_const_pred (l : List α) :
    GenericRemoveIf (fun _ => false) l = l ∧
    GenericRemoveIf (fun _ => true) l = [] := by
  constructor <;>
    · rw [GenericRemoveIf, removeIfAux_eq_filter]
      simp

/-- C7: on an empty array, `GenericMax` and `GenericMin` return
`nullptr`/`none` (no crash), the Blueprint thunks `execMax`/`execMin` leave
the caller's output value unmodified, and `GenericMaxElementIndex` and
`GenericMinElementIndex` return the not-found result `INDEX_NONE`. -/
theorem empty_array_extrema (cmp : α → α → Bool) (out : α) :
    GenericMaxElementIndex cmp ([] : List α) = INDEX_NONE ∧
    GenericMinElementIndex cmp ([] : List α) = INDEX_NONE ∧
    GenericMax cmp ([] : List α) = none ∧
    GenericMin cmp ([] : List α) = none ∧
    execMax cmp [] out = out ∧
    execMin cmp [] out = out :=
  ⟨rfl, rfl, rfl, rfl, rfl, rfl⟩

/-- C8: filling the full range `[0, len A)` produces exactly the same array
contents as filling the whole array. -/
theorem fillRange_full_eq_fill (v : α) (l : List α) :
    GenericFillRange v 0 l.length l = GenericFill v l := by
  rw [GenericFillRange, GenericFill]
  have haux : ∀ (t : List α) (i : Nat), i + t.length ≤ l.length →
      fillRangeAux v 0 l.length i t = t.map fun _ => v := by
    intro t
    induction t with
    | nil => intro i _; rfl
    | cons a rest ih =>
      intro i hle
      simp only [List.length_cons] at hle
      have hi : i < l.length := by omega
      simp [fillRangeAux, hi, ih (i + 1) (by omega)]
  exact haux l 0 (by omega)

/-- C9: for every non-empty array and negative `NumOfSamples`, the unsigned
conversion `unsigned_num_t rest_samples = NumOfSamples` makes the remaining
sample counter at least `2 ^ 31`, which exceeds every possible array length,
so every element is placed in `Samples` and `Others` is left empty. -/
theorem randomSample_negative_count (k : Int) (ld : List (α × Nat))
    (hneg : k < 0) (hlow : -2 ^ 31 ≤ k) (hv : ValidDraws ld = true)
    (hlen : ld.length < 2 ^ 31) (_hne : ld ≠ []) :
    GenericRandomSample k ld = (ld.map Prod.fst, []) := by
  rw [GenericRandomSample_eq_aux]
  have hk := toUInt32Nat_of_neg k hneg hlow
  exact randomSampleAux_all_samples ld (toUInt32Nat k) hv (by omega)

/-- Witness for C9 at a concrete input: sampling `-1` elements from `[5, 7]`
returns all of `[5, 7]` as samples and no others. -/
theorem randomSample_negative_count_witness :
    GenericRandomSample (-1) [((5 : Nat), 1), ((7 : Nat), 0)] =
      ([5, 7], []) := by
  have h := randomSample_negative_count (-1)
    [((5 : Nat), 1), ((7 : Nat), 0)] (by decide) (by norm_num) (by decide)
    (by norm_num) (by decide)
  simpa using h

/-- C3: `GenericSortAnyArray` is idempotent for every strict-weak-order
comparator (`hirr`: irreflexivity, `htrans`: transitivity, `hcomp`: if `a`
precedes `c` then every `b` either follows `a` or precedes `c` — the usual
strict-weak-order axioms, which `std::sort` requires of its comparator):
sorting an array already sorted by that comparator leaves it unchanged, and
sorting twice yields the same contents as sorting once. -/
theorem sortAnyArray_idempotent (cmp : α → α → Bool)
    (hirr : ∀ a, cmp a a = false)
    (htrans : ∀ a b c, cmp a b = true → cmp b c = true → cmp a c = true)
    (hcomp : ∀ a b c, cmp a c = true → cmp a b = true ∨ cmp b c = true) :
    (∀ l : List α, l.Sorted (fun a b => cmp b a = false) →
        GenericSortAnyArray cmp l = l) ∧
    (∀ l : List α,
        GenericSortAnyArray cmp (GenericSortAnyArray cmp l) =
          GenericSortAnyArray cmp l) := by
  have hsorted_eq : ∀ l : List α, l.Sorted (fun a b => cmp b a = false) →
      GenericSortAnyArray cmp l = l := by
    intro l hl
    rw [GenericSortAnyArray]
    exact hl.insertionSort_eq
  refine ⟨hsorted_eq, ?_⟩
  intro l
  haveI : IsTotal α fun a b => cmp b a = false := by
    constructor
    intro a b
    by_cases hba : cmp b a = true
    · right
      by_cases hab : cmp a b = true
      · have := htrans a b a hab hba
        rw [hirr a] at this
        exact absurd this (by simp)
      · simpa using hab
    · left
      simpa using hba
  haveI : IsTrans α fun a b => cmp b a = false := by
    constructor
    intro a b c hba hcb
    by_cases hca : cmp c a = true
    · rcases hcomp c b a hca with h | h
      · rw [hcb] at h
        exact absurd h (by simp)
      · rw [hba] at h
        exact absurd h (by simp)
    · simpa using hca
  exact hsorted_eq (GenericSortAnyArray cmp l)
    (List.sorted_insertionSort (fun a b => cmp b a = false) l)

/-- Witness for C3 with the numeric less-than comparator on `Fin 3`. -/
theorem sortAnyArray_idempotent_witness :
    (GenericSortAnyArray (fun a b : Fin 3 => decide (a < b)) [0, 1, 2] =
      [0, 1, 2]) ∧
    (GenericSortAnyArray (fun a b : Fin 3 => decide (a < b))
        (GenericSortAnyArray (fun a b : Fin 3 => decide (a < b)) [2, 0, 1]) =
      GenericSortAnyArray (fun a b : Fin 3 => decide (a < b)) [2, 0, 1]) :=
  ⟨(sortAnyArray_idempotent (fun a b : Fin 3 => decide (a < b)) (by decide)
      (by decide) (by decide)).1 [0, 1, 2] (by decide),
    (sortAnyArray_idempotent (fun a b : Fin 3 => decide (a < b)) (by decide)
      (by decide) (by decide)).2 [2, 0, 1]⟩

theorem enumFromN_map_snd : ∀ (i : Nat) (l : List α),
    (enumFromN i l).map Prod.snd = l
  | _, [] => rfl
  | i, a :: rest => by
    simp [enumFromN, enumFromN_map_snd (i + 1) rest]

theorem mem_enumFromN : ∀ (l : List α) (i : Nat) (q : Nat × α),
    q ∈ enumFromN i l →
      i ≤ q.1 ∧ q.1 - i < l.length ∧ l.get? (q.1 - i) = some q.2
  | [], _, _, hq => by simp [enumFromN] at hq
  | a :: rest, i, q, hq => by
    rw [enumFromN, List.mem_cons] at hq
    rcases hq with hq | hq
    · subst hq
      simp
    · obtain ⟨h1, h2, h3⟩ := mem_enumFromN rest (i + 1) q hq
      have hsub : q.1 - i = (q.1 - (i + 1)) + 1 := by omega
      refine ⟨by omega, ?_, ?_⟩
      · simp only [List.length_cons]
        omega
      · rw [hsub]
        simpa using h3

theorem enumFromN_mem_of_get? : ∀ (l : List α) (i k : Nat) (v : α),
    l.get? k = some v → (i + k, v) ∈ enumFromN i l
  | [], _, k, _, hget => by simp at hget
  | a :: rest, i, 0, v, hget => by
    simp only [List.get?] at hget
    rw [enumFromN]
    simp [Option.some_inj.mp hget]
  | a :: rest, i, k + 1, v, hget => by
    simp only [List.get?] at hget
    have := enumFromN_mem_of_get? rest (i + 1) k v hget
    rw [enumFromN, List.mem_cons]
    right
    have harith : i + (k + 1) = (i + 1) + k := by omega
    rw [harith]
    exact this

theorem enumFromN_pairwise : ∀ (i : Nat) (l : List α),
    (enumFromN i l).Pairwise fun p q => p.1 < q.1
  | _, [] => List.Pairwise.nil
  | i, a :: rest => by
    rw [enumFromN, List.pairwise_cons]
    refine ⟨?_, enumFromN_pairwise (i + 1) rest⟩
    intro q hq
    have := (mem_enumFromN rest (i + 1) q hq).1
    simp only
    omega

/-- Invariant of the `std::max_element` scan: under a strict-weak-order
comparator, the returned index belongs to a maximal element of the scanned
values, it is minimal among the indices of maximal elements (when the indices
increase along the list), and the initial best survives unless some later
value beats it. -/
theorem maxScanP_spec (cmp : α → α → Bool)
    (hirr : ∀ a, cmp a a = false)
    (htrans : ∀ a b c, cmp a b = true → cmp b c = true → cmp a c = true)
    (hcomp : ∀ a b c, cmp a c = true → cmp a b = true ∨ cmp b c = true)
    (xs : List (Nat × α)) :
    ∀ b : Nat × α, (b :: xs).Pairwise (fun p q => p.1 < q.1) →
      (∃ q ∈ b :: xs, maxScanP cmp b xs = q.1 ∧
          ∀ u ∈ b.2 :: xs.map Prod.snd, cmp q.2 u = false) ∧
      (∀ q ∈ b :: xs,
          (∀ u ∈ b.2 :: xs.map Prod.snd, cmp q.2 u = false) →
          maxScanP cmp b xs ≤ q.1) ∧
      (maxScanP cmp b xs = b.1 ∨
        ∃ u ∈ xs.map Prod.snd, cmp b.2 u = true) := by
  induction xs with
  | nil =>
    intro b _
    refine ⟨⟨b, by simp, rfl, ?_⟩, ?_, Or.inl rfl⟩
    · intro u hu
      simp only [List.map_nil, List.mem_singleton] at hu
      subst hu
      exact hirr b.2
    · intro q hq _
      simp only [List.mem_singleton] at hq
      rw [hq]
      exact Nat.le_refl b.1
  | cons x rest ih =>
    intro b hpw
    rw [List.pairwise_cons] at hpw
    obtain ⟨hb, hxr⟩ := hpw
    have hbx1 : b.1 < x.1 := hb x (by simp)
    by_cases hbx : cmp b.2 x.2 = true
    · have hred : maxScanP cmp b (x :: rest) = maxScanP cmp x rest := by
        rw [maxScanP, if_pos hbx]
      obtain ⟨⟨q, hqmem, hqeq, hqmax⟩, hleast, hlast⟩ := ih x hxr
      rw [hred]
      refine ⟨⟨q, List.mem_cons_of_mem b hqmem, hqeq, ?_⟩, ?_,
        Or.inr ⟨x.2, by simp, hbx⟩⟩
      · intro u hu
        rw [List.map_cons] at hu
        rcases List.mem_cons.mp hu with hub | hu2
        · subst hub
          by_cases hqb : cmp q.2 b.2 = true
          · have hq2x : cmp q.2 x.2 = true := htrans q.2 b.2 x.2 hqb hbx
            have hfalse := hqmax x.2 (by simp)
            rw [hfalse] at hq2x
            exact absurd hq2x (by simp)
          · simpa using hqb
        · exact hqmax u hu2
      · intro p hp hpmax
        rcases List.mem_cons.mp hp with hpb | hp2
        · subst hpb
          have hfalse := hpmax x.2 (by simp)
          rw [hbx] at hfalse
          exact absurd hfalse (by simp)
        · exact hleast p hp2 fun u hu => hpmax u (by
            rw [List.map_cons]
            exact List.mem_cons_of_mem _ hu)
    · have hbx0 : cmp b.2 x.2 = false := by simpa using hbx
      have hred : maxScanP cmp b (x :: rest) = maxScanP cmp b rest := by
        rw [maxScanP, if_neg (by simp [hbx0])]
      have hpw2 : (b :: rest).Pairwise fun p q => p.1 < q.1 := by
        rw [List.pairwise_cons] at hxr ⊢
        exact ⟨fun q hq => hb q (List.mem_cons_of_mem x hq), hxr.2⟩
      obtain ⟨⟨q, hqmem, hqeq, hqmax⟩, hleast, hlast⟩ := ih b hpw2
      rw [hred]
      have hqx : cmp q.2 x.2 = false := by
        by_cases hq2x : cmp q.2 x.2 = true
        · rcases hcomp q.2 b.2 x.2 hq2x with h | h
          · have hfalse := hqmax b.2 (by simp)
            rw [hfalse] at h
            exact absurd h (by simp)
          · rw [hbx0] at h
            exact absurd h (by simp)
        · simpa using hq2x
      have hsubmem : ∀ u : α, u ∈ b.2 :: rest.map Prod.snd →
          u ∈ b.2 :: (x :: rest).map Prod.snd := by
        intro u hu
        rw [List.map_cons]
        rcases List.mem_cons.mp hu with hub | hur
        · simp [hub]
        · simp [List.mem_cons.mpr (Or.inr hur)]
      have hqmax2 : ∀ u ∈ b.2 :: (x :: rest).map Prod.snd,
          cmp q.2 u = false := by
        intro u hu
        rw [List.map_cons] at hu
        rcases List.mem_cons.mp hu with hub | hu2
        · subst hub
          exact hqmax b.2 (by simp)
        · rcases List.mem_cons.mp hu2 with hux | hur
          · subst hux
            exact hqx
          · exact hqmax u (by simp [hur])
      refine ⟨⟨q, ?_, hqeq, hqmax2⟩, ?_, ?_⟩
      · rcases List.mem_cons.mp hqmem with hqb | hq2
        · rw [hqb]
          exact List.mem_cons_self b (x :: rest)
        · exact List.mem_cons_of_mem b (List.mem_cons_of_mem x hq2)
      · intro p hp hpmax
        rcases List.mem_cons.mp hp with hpb | hp2
        · rw [hpb] at hpmax ⊢
          exact hleast b (by simp) fun u hu => hpmax u (hsubmem u hu)
        · rcases List.mem_cons.mp hp2 with hpx | hpr
          · subst hpx
            rcases hlast with heq | ⟨u, humem, hbu⟩
            · rw [heq]
              exact Nat.le_of_lt hbx1
            · rcases hcomp b.2 p.2 u hbu with h | h
              · rw [hbx0] at h
                exact absurd h (by simp)
              · have hfalse := hpmax u (by
                  rw [List.map_cons]
                  exact List.mem_cons_of_mem _ (List.mem_cons_of_mem _ humem))
                rw [hfalse] at h
                exact absurd h (by simp)
          · exact hleast p (List.mem_cons_of_mem b hpr)
              fun u hu => hpmax u (hsubmem u hu)
      · rcases hlast with heq | ⟨u, humem, hbu⟩
        · exact Or.inl heq
        · refine Or.inr ⟨u, ?_, hbu⟩
          rw [List.map_cons]
          exact List.mem_cons_of_mem _ humem

theorem maxElementIndex_spec (cmp : α → α → Bool)
    (hirr : ∀ a, cmp a a = false)
    (htrans : ∀ a b c, cmp a b = true → cmp b c = true → cmp a c = true)
    (hcomp : ∀ a b c, cmp a c = true → cmp a b = true ∨ cmp b c = true)
    (l : List α) (hne : l ≠ []) :
    ∃ j : Nat, ∃ v : α, GenericMaxElementIndex cmp l = (j : Int) ∧
      l.get? j = some v ∧ (∀ u ∈ l, cmp v u = false) ∧
      ∀ i w, i < j → l.get? i = some w → ∃ u ∈ l, cmp w u = true := by
  obtain ⟨a, t, rfl⟩ := List.exists_cons_of_ne_nil hne
  have hpw : ((0, a) :: enumFromN 1 t).Pairwise fun p q => p.1 < q.1 :=
    enumFromN_pairwise 0 (a :: t)
  obtain ⟨⟨q, hqmem, hqeq, hqmax⟩, hleast, _⟩ :=
    maxScanP_spec cmp hirr htrans hcomp (enumFromN 1 t) (0, a) hpw
  have hvals : (0, a).2 :: (enumFromN 1 t).map Prod.snd = a :: t := by
    simp [enumFromN_map_snd 1 t]
  refine ⟨q.1, q.2, ?_, ?_, ?_, ?_⟩
  · show ((maxScanP cmp (0, a) (enumFromN 1 t) : Nat) : Int) = (q.1 : Int)
    rw [hqeq]
  · have hm := mem_enumFromN (a :: t) 0 q hqmem
    simpa using hm.2.2
  · intro u hu
    apply hqmax
    rw [hvals]
    exact hu
  · intro i w hij hget
    by_contra hno
    push_neg at hno
    simp only [Bool.not_eq_true] at hno
    have hmem : ((0 + i : Nat), w) ∈ enumFromN 0 (a :: t) :=
      enumFromN_mem_of_get? (a :: t) 0 i w hget
    simp only [Nat.zero_add] at hmem
    have hle := hleast (i, w) hmem (by
      rw [hvals]
      exact fun u hu => hno u hu)
    have hle2 : q.1 ≤ i := by
      rw [hqeq] at hle
      exact hle
    omega

theorem minScanP_eq_maxScanP_swap (cmp : α → α → Bool) :
    ∀ (xs : List (Nat × α)) (b : Nat × α),
      minScanP cmp b xs = maxScanP (fun a c => cmp c a) b xs
  | [], _ => rfl
  | x :: rest, b => by
    rw [minScanP, maxScanP]
    by_cases h : cmp x.2 b.2 = true
    · rw [if_pos h, if_pos h, minScanP_eq_maxScanP_swap cmp rest x]
    · rw [if_neg h, if_neg h, minScanP_eq_maxScanP_swap cmp rest b]

theorem GenericMinElementIndex_eq_swap (cmp : α → α → Bool) (l : List α) :
    GenericMinElementIndex cmp l =
      GenericMaxElementIndex (fun a b => cmp b a) l := by
  cases h : enumFromN 0 l with
  | nil => simp [GenericMinElementIndex, GenericMaxElementIndex, h]
  | cons b rest =>
    simp only [GenericMinElementIndex, GenericMaxElementIndex, h]
    rw [minScanP_eq_maxScanP_swap]

theorem minElementIndex_spec (cmp : α → α → Bool)
    (hirr : ∀ a, cmp a a = false)
    (htrans : ∀ a b c, cmp a b = true → cmp b c = true → cmp a c = true)
    (hcomp : ∀ a b c, cmp a c = true → cmp a b = true ∨ cmp b c = true)
    (l : List α) (hne : l ≠ []) :
    ∃ j : Nat, ∃ v : α, GenericMinElementIndex cmp l = (j : Int) ∧
      l.get? j = some v ∧ (∀ u ∈ l, cmp u v = false) ∧
      ∀ i w, i < j → l.get? i = some w → ∃ u ∈ l, cmp u w = true := by
  rw [GenericMinElementIndex_eq_swap]
  exact maxElementIndex_spec (fun a b => cmp b a) hirr
    (fun a b c h1 h2 => htrans c b a h2 h1)
    (fun a b c h => (hcomp c b a h).symm) l hne

/-- C10: for every non-empty array and every strict-weak-order comparator
(`hirr`, `htrans`, `hcomp`), `GenericMaxElementIndex` returns the smallest
index among the maximal elements (every element strictly earlier is beaten
by some element) and `GenericMinElementIndex` returns the smallest index
among the minimal elements: ties always resolve to the first occurrence in
array order. -/
theorem extremumIndex_first_of_ties (cmp : α → α → Bool)
    (hirr : ∀ a, cmp a a = false)
    (htrans : ∀ a b c, cmp a b = true → cmp b c = true → cmp a c = true)
    (hcomp : ∀ a b c, cmp a c = true → cmp a b = true ∨ cmp b c = true)
    (l : List α) (hne : l ≠ []) :
    (∃ j : Nat, ∃ v : α, GenericMaxElementIndex cmp l = (j : Int) ∧
      l.get? j = some v ∧ (∀ u ∈ l, cmp v u = false) ∧
      ∀ i w, i < j → l.get? i = some w → ∃ u ∈ l, cmp w u = true) ∧
    (∃ j : Nat, ∃ v : α, GenericMinElementIndex cmp l = (j : Int) ∧
      l.get? j = some v ∧ (∀ u ∈ l, cmp u v = false) ∧
      ∀ i w, i < j → l.get? i = some w → ∃ u ∈ l, cmp u w = true) :=
  ⟨maxElementIndex_spec cmp hirr htrans hcomp l hne,
    minElementIndex_spec cmp hirr htrans hcomp l hne⟩

/-- Witness for C10 on `[1, 2, 2, 0]` over `Fin 3` with numeric less-than:
the maximum index is `1` (first of the two `2`s) and the minimum index is
`3`. -/
theorem extremumIndex_first_of_ties_witness :
    (∃ j : Nat, ∃ v : Fin 3,
      GenericMaxElementIndex (fun a b : Fin 3 => decide (a < b)) [1, 2, 2, 0] =
        (j : Int) ∧
      ([1, 2, 2, 0] : List (Fin 3)).get? j = some v ∧
      (∀ u ∈ ([1, 2, 2, 0] : List (Fin 3)), decide (v < u) = false) ∧
      ∀ i w, i < j → ([1, 2, 2, 0] : List (Fin 3)).get? i = some w →
        ∃ u ∈ ([1, 2, 2, 0] : List (Fin 3)), decide (w < u) = true) ∧
    (∃ j : Nat, ∃ v : Fin 3,
      GenericMinElementIndex (fun a b : Fin 3 => decide (a < b)) [1, 2, 2, 0] =
        (j : Int) ∧
      ([1, 2, 2, 0] : List (Fin 3)).get? j = some v ∧
      (∀ u ∈ ([1, 2, 2, 0] : List (Fin 3)), decide (u < v) = false) ∧
      ∀ i w, i < j → ([1, 2, 2, 0] : List (Fin 3)).get? i = some w →
        ∃ u ∈ ([1, 2, 2, 0] : List (Fin 3)), decide (u < w) = true) :=
  extremumIndex_first_of_ties (fun a b : Fin 3 => decide (a < b)) (by decide)
    (by decide) (by decide) [1, 2, 2, 0] (by decide)

end UdonArrayUtils
